import Mathlib

/-!
Shallow embedding of the 8-puzzle search core (`src/utils.py`):
state/move model (`Board`), search-node tree (`BoardNode`), the CPython
`heapq` routines the strategies rely on, and the seven search strategies
(`A_STAR`, `BFS`, `DFS`/`limited_DFS`, `UCS`, `Greedy`, `BEAM_SEARCH`,
`Hill_Climbing`), plus the `Board.solve` orchestrator.

Python-level conventions used throughout:
* a Python tuple-of-9-ints state is a `List Nat`;
* Python `list.index(x)` (which raises `ValueError` when absent) is
  `listIndex`, returning `Option Nat`;
* Python indexing `l[i]` with a possibly negative `i` is `pyIndex`
  (negative indices wrap by `+ len`; out-of-range is `none`, i.e.
  `IndexError`);
* loops carry an explicit fuel argument; exhausting fuel yields a
  distinguished `timeout` value that no Python run produces.
-/

set_option maxHeartbeats 1000000

/-- A puzzle state: the Python 9-tuple of tile values (0 is the blank). -/
abbrev State := List Nat

/-- The four move labels of `valid_actions` / `transform`. -/
inductive Move : Type where
  | U | D | L | R
deriving DecidableEq, Repr

/-- Modelled from the spec: `opposite(m)`, the move undoing `m` (`U`/`D`
and `L`/`R` are opposite directions); the source defines no such helper,
the spec's move-reversibility property refers to it by name. -/
def opposite : Move → Move
  | .U => .D
  | .D => .U
  | .L => .R
  | .R => .L

/-- Python `list.index(x)`: index of the first occurrence, `none` for the
`ValueError` raised when `x` is absent. -/
def listIndex (x : Nat) : List Nat → Option Nat
  | [] => none
  | y :: ys => if y = x then some 0 else (listIndex x ys).map (· + 1)

/-- Python sequence indexing for a sequence of length `n`: negative indices
count from the end; anything else out of range is an `IndexError` (`none`). -/
def pyIndex (n : Nat) (i : Int) : Option Nat :=
  if 0 ≤ i ∧ i < (n : Int) then some i.toNat
  else if -(n : Int) ≤ i ∧ i < 0 then some (i + n).toNat
  else none

/-- The Python parallel assignment `l[i], l[j] = l[j], l[i]` where `i` is a
known in-range index and `j` may be negative (resolved by `pyIndex`). -/
def pySwap (l : List Nat) (i : Nat) (j : Int) : Option (List Nat) :=
  match pyIndex l.length j with
  | none => none
  | some j2 => some ((l.set i (l.getD j2 0)).set j2 (l.getD i 0))

namespace Board

/-- `Board.translate_to_2D`. -/
def translate_to_2D (index : Nat) : Nat × Nat := (index / 3, index % 3)

/-- `Board.manhattan_distance` (Python ints: compute in `Int`, result is the
absolute-value sum). -/
def manhattan_distance (x1 y1 x2 y2 : Nat) : Nat :=
  ((x1 : Int) - x2).natAbs + ((y1 : Int) - y2).natAbs

/-- `Board.valid_actions`: the generated actions, in `U, D, L, R` order.
When the state has no blank the Python generator would raise `ValueError`
at `state.index(0)`; that case never arises on permutation states and is
rendered as the empty list. -/
def valid_actions (state : State) : List Move :=
  match listIndex 0 state with
  | none => []
  | some blank_index =>
    (if blank_index > 2 then [Move.U] else []) ++
    (if blank_index < 6 then [Move.D] else []) ++
    (if blank_index % 3 > 0 then [Move.L] else []) ++
    (if blank_index % 3 < 2 then [Move.R] else [])

/-- `Board.transform`: swaps the blank with the target cell of `action`.
No legality check is performed; the target index is resolved exactly as
Python resolves `blank_index ± 1/± 3` (negative indexes wrap, indexes ≥ 9
raise `IndexError` = `none`). -/
def transform (state : State) (action : Move) : Option State :=
  match listIndex 0 state with
  | none => none
  | some blank_index =>
    match action with
    | .U => pySwap state blank_index ((blank_index : Int) - 3)
    | .D => pySwap state blank_index ((blank_index : Int) + 3)
    | .L => pySwap state blank_index ((blank_index : Int) - 1)
    | .R => pySwap state blank_index ((blank_index : Int) + 1)

/-- `Board.inversions`: the double loop over pairs `i < j < 9`. -/
def inversions (state : State) : Nat :=
  ((List.range 9).map (fun i =>
    ((List.range 9).map (fun j =>
      if i < j ∧ state.getD i 0 ≠ 0 ∧ state.getD j 0 ≠ 0 ∧
          state.getD i 0 > state.getD j 0 then 1 else 0)).sum)).sum

/-- `Board.is_solvable`. -/
def is_solvable (state : State) : Bool := inversions state % 2 == 0

end Board

/-- The goal tuple `tuple(range(9))` stored on every `BoardNode`. -/
def goalState : State := [0, 1, 2, 3, 4, 5, 6, 7, 8]

/-- The target cell index that `Board.transform` hands to `pySwap` for a
move applied at blank index `b` (the `blank_index ± 1 / ± 3` expressions,
as Python ints). -/
def moveTarget (m : Move) (b : Nat) : Int :=
  match m with
  | .U => (b : Int) - 3
  | .D => (b : Int) + 3
  | .L => (b : Int) - 1
  | .R => (b : Int) + 1

/-- A search node (`BoardNode`): `state`, the `action` that produced it
(absent on the root), the `parent` back-reference, and the stored `depth`. -/
inductive BoardNode : Type where
  | mk (state : State) (action : Option Move) (parent : Option BoardNode) (depth : Nat)

/-- Structural decidable equality on `BoardNode` (`BoardNode` nests itself
through `Option`, so `deriving` cannot build this; note the Python-level
`__eq__` is `nodeEq` below, not this). -/
def BoardNode.decEq : (a b : BoardNode) → Decidable (a = b)
  | .mk s a none d, .mk t b none e =>
    decidable_of_iff (s = t ∧ a = b ∧ d = e) (by simp)
  | .mk _ _ none _, .mk _ _ (some _) _ => isFalse (by simp)
  | .mk _ _ (some _) _, .mk _ _ none _ => isFalse (by simp)
  | .mk s a (some p) d, .mk t b (some q) e =>
    have : Decidable (p = q) := BoardNode.decEq p q
    decidable_of_iff (s = t ∧ a = b ∧ p = q ∧ d = e) (by simp)

instance : DecidableEq BoardNode := BoardNode.decEq

/-- Field accessor for `BoardNode.state`. -/
def BoardNode.state : BoardNode → State
  | .mk s _ _ _ => s

/-- Field accessor for `BoardNode.action`. -/
def BoardNode.action : BoardNode → Option Move
  | .mk _ a _ _ => a

/-- Field accessor for `BoardNode.parent`. -/
def BoardNode.parent : BoardNode → Option BoardNode
  | .mk _ _ p _ => p

/-- Field accessor for `BoardNode.depth`. -/
def BoardNode.depth : BoardNode → Nat
  | .mk _ _ _ d => d

/-- `BoardNode(state)` as `Board.solve` builds it: no action, no parent,
depth 0. -/
def BoardNode.root (s : State) : BoardNode := .mk s none none 0

/-- `self.goal.index(item)` where `goal = tuple(range(9))`. The `getD 0`
default stands for the `ValueError` Python would raise on a value outside
`0..8`; it is never reached on permutation states. -/
def goalIndex (item : Nat) : Nat := (listIndex item goalState).getD 0

/-- The `heuristic_sum` loop of `BoardNode.cost`: the whole-board Manhattan
sum over `enumerate(self.state)`. -/
def heuristicSum (s : State) : Nat :=
  (s.enum.map (fun p =>
    let curr := Board.translate_to_2D p.1
    let goal := Board.translate_to_2D (goalIndex p.2)
    Board.manhattan_distance curr.1 curr.2 goal.1 goal.2)).sum

/-- `BoardNode.cost`: `heuristic_sum + self.depth`. -/
def BoardNode.cost (n : BoardNode) : Nat := heuristicSum n.state + n.depth

/-- `BoardNode.is_goal`. -/
def BoardNode.is_goal (n : BoardNode) : Bool := n.state == goalState

/-- `BoardNode.__lt__`: comparison by `cost()` alone. -/
def nodeLt (a b : BoardNode) : Bool := a.cost < b.cost

/-- `BoardNode.__eq__`: equality of `cost()` alone. -/
def nodeEq (a b : BoardNode) : Bool := a.cost == b.cost

/-- The children built by `BoardNode.expand` (one per `valid_actions`
entry, in generator order). `expand` caches into `self.nodes`; every
strategy expands a popped node at most once, so the pure child list is the
faithful rendering. `transform` cannot fail on an action produced by
`valid_actions`, so the `filterMap` never drops a child. -/
def BoardNode.expandChildren (n : BoardNode) : List BoardNode :=
  (Board.valid_actions n.state).filterMap (fun a =>
    (Board.transform n.state a).map (fun s => BoardNode.mk s (some a) (some n) (n.depth + 1)))

/-- The action values collected by `iterate_ancestors`, self first,
root last. -/
def BoardNode.ancestorActions : BoardNode → List (Option Move)
  | .mk _ a none _ => [a]
  | .mk _ a (some p) _ => a :: ancestorActions p

/-- `BoardNode.actions`: Python `tuple(...)[-2::-1]` — drop the root's
`None` action (the last element) and reverse. -/
def BoardNode.actions (n : BoardNode) : List (Option Move) :=
  n.ancestorActions.dropLast.reverse

/-! ### CPython `heapq`

Faithful renderings of `heapq.heappush` / `heapq.heappop` and the two sift
routines, generic in the `__lt__` comparison `lt` and an (unreachable)
default element `d` for out-of-range reads. The sift loops carry fuel; the
wrappers supply fuel that strictly exceeds the number of iterations either
loop can make (`_siftdown` decreases `pos` every step, `_siftup` increases
`pos` below `len`), so the fuel-out branches are never taken. -/

/-- The `while` loop of `heapq._siftdown` (percolate `newitem` up). -/
def siftdownGo (lt : α → α → Bool) (d : α) :
    Nat → List α → Nat → Nat → α → List α
  | 0, heap, _, pos, newitem => heap.set pos newitem
  | fuel + 1, heap, startpos, pos, newitem =>
    if pos > startpos then
      let parentpos := (pos - 1) / 2
      let parent := heap.getD parentpos d
      if lt newitem parent then
        siftdownGo lt d fuel (heap.set pos parent) startpos parentpos newitem
      else heap.set pos newitem
    else heap.set pos newitem

/-- `heapq._siftdown(heap, startpos, pos)`. -/
def siftdown (lt : α → α → Bool) (d : α) (heap : List α) (startpos pos : Nat) : List α :=
  siftdownGo lt d (pos + 1) heap startpos pos (heap.getD pos d)

/-- The `while` loop of `heapq._siftup` (push the smaller child up), ending
with the trailing `heap[pos] = newitem; _siftdown(heap, startpos, pos)`. -/
def siftupGo (lt : α → α → Bool) (d : α) :
    Nat → List α → Nat → Nat → α → List α
  | 0, heap, _, pos, newitem => heap.set pos newitem
  | fuel + 1, heap, startpos, pos, newitem =>
    let endpos := heap.length
    let childpos := 2 * pos + 1
    if childpos < endpos then
      let rightpos := childpos + 1
      let childpos2 :=
        if rightpos < endpos ∧ ¬ lt (heap.getD childpos d) (heap.getD rightpos d)
        then rightpos else childpos
      siftupGo lt d fuel (heap.set pos (heap.getD childpos2 d)) startpos childpos2 newitem
    else siftdown lt d (heap.set pos newitem) startpos pos

/-- `heapq._siftup(heap, pos)` (Python calls it with `startpos = pos`). -/
def siftup (lt : α → α → Bool) (d : α) (heap : List α) (pos : Nat) : List α :=
  siftupGo lt d (heap.length + 1) heap pos pos (heap.getD pos d)

/-- `heapq.heappush`. -/
def heappush (lt : α → α → Bool) (d : α) (heap : List α) (item : α) : List α :=
  siftdown lt d (heap ++ [item]) 0 (heap.length + 1 - 1)

/-- `heapq.heappop`: `none` is the `IndexError` on an empty heap; otherwise
returns the popped minimum plus the remaining heap. -/
def heappop (lt : α → α → Bool) (d : α) : List α → Option (α × List α)
  | [] => none
  | x :: xs =>
    let heap := x :: xs
    let lastelt := heap.getD (heap.length - 1) d
    let rest := heap.dropLast
    match rest with
    | [] => some (lastelt, [])
    | _ :: _ => some (rest.getD 0 d, siftup lt d (rest.set 0 lastelt) 0)

/-- Unreachable default `BoardNode` for out-of-range heap reads. -/
def dnode : BoardNode := BoardNode.root []

/-! ### Strategies -/

/-- Python `set.add` on the explored set, rendered as an order-preserving
duplicate-free list (membership and size are all the code consumes). -/
def setAdd (s : List State) (x : State) : List State :=
  if x ∈ s then s else s ++ [x]

/-- A strategy's Python return value. `timeout` is the fuel-exhaustion
artifact of the embedding; `bareNone` is a bare `return None`;
`triple t x y` is a 3-tuple return. -/
inductive PyRet : Type where
  | timeout
  | bareNone
  | triple (t : Option BoardNode) (x y : Nat)
deriving DecidableEq

/-- The `for neighbor in node.nodes` body shared verbatim by `A_STAR`,
`BFS` and `BEAM_SEARCH`: skip explored states, insert the rest (by the
given push), add them to the explored set, update `max_search_depth`. -/
def admitChildren (push : List β → BoardNode → List β) :
    List BoardNode → List β → List State → Nat → (List β × List State × Nat)
  | [], frontier, explored, maxdepth => (frontier, explored, maxdepth)
  | c :: cs, frontier, explored, maxdepth =>
    if c.state ∈ explored then admitChildren push cs frontier explored maxdepth
    else admitChildren push cs (push frontier c) (setAdd explored c.state)
      (if c.depth > maxdepth then c.depth else maxdepth)

/-- The `while frontier` loop of `A_STAR`. -/
def A_STAR_loop : Nat → List BoardNode → List State → Nat → Nat → PyRet
  | 0, _, _, _, _ => .timeout
  | fuel + 1, frontier, explored_nodes, nodes_expanded, max_search_depth =>
    match heappop nodeLt dnode frontier with
    | none => .bareNone
    | some (node, frontier2) =>
      let explored_nodes := setAdd explored_nodes node.state
      if node.is_goal then .triple (some node) nodes_expanded max_search_depth
      else
        match admitChildren (heappush nodeLt dnode) node.expandChildren
            frontier2 explored_nodes max_search_depth with
        | (frontier3, explored3, maxdepth3) =>
          A_STAR_loop fuel frontier3 explored3 (nodes_expanded + 1) maxdepth3

/-- `A_STAR(start_node)`. -/
def A_STAR (fuel : Nat) (start_node : BoardNode) : PyRet :=
  A_STAR_loop fuel (heappush nodeLt dnode [] start_node) [] 0 0

/-- The `while frontier` loop of `BFS` (FIFO deque). -/
def BFS_loop : Nat → List BoardNode → List State → Nat → Nat → PyRet
  | 0, _, _, _, _ => .timeout
  | fuel + 1, frontier, explored_nodes, nodes_expanded, max_search_depth =>
    match frontier with
    | [] => .bareNone
    | node :: frontier2 =>
      let explored_nodes := setAdd explored_nodes node.state
      if node.is_goal then .triple (some node) nodes_expanded max_search_depth
      else
        match admitChildren (fun fr c => fr ++ [c]) node.expandChildren
            frontier2 explored_nodes max_search_depth with
        | (frontier3, explored3, maxdepth3) =>
          BFS_loop fuel frontier3 explored3 (nodes_expanded + 1) maxdepth3

/-- `BFS(start_node)`. -/
def BFS (fuel : Nat) (start_node : BoardNode) : PyRet :=
  BFS_loop fuel [start_node] [] 0 0

/-- The push loop `for neighbor in reversed(node.nodes)` of `limited_DFS`
(no explored-set update at push time). -/
def dfsPush (explored : List State) (depth : Nat) :
    List BoardNode → List (BoardNode × Nat) → List (BoardNode × Nat)
  | [], frontier => frontier
  | c :: cs, frontier =>
    if c.state ∈ explored then dfsPush explored depth cs frontier
    else dfsPush explored depth cs (frontier ++ [(c, depth + 1)])

/-- The `while frontier` loop of `limited_DFS` (LIFO: pop from the right). -/
def limited_DFS_loop (max_depth : Nat) : Nat → List (BoardNode × Nat) → List State → Nat → PyRet
  | 0, _, _, _ => .timeout
  | fuel + 1, frontier, explored_nodes, nodes_expanded =>
    match frontier.getLast? with
    | none => .bareNone
    | some (node, depth) =>
      let frontier2 := frontier.dropLast
      let explored_nodes := setAdd explored_nodes node.state
      if node.is_goal then .triple (some node) nodes_expanded depth
      else if depth < max_depth then
        limited_DFS_loop max_depth fuel
          (dfsPush explored_nodes depth node.expandChildren.reverse frontier2)
          explored_nodes (nodes_expanded + 1)
      else limited_DFS_loop max_depth fuel frontier2 explored_nodes nodes_expanded

/-- `limited_DFS(start_node, max_depth)`. -/
def limited_DFS (fuel : Nat) (start_node : BoardNode) (max_depth : Nat) : PyRet :=
  limited_DFS_loop max_depth fuel [(start_node, 0)] [] 0

/-- The `while True` loop of `DFS`: try `limited_DFS` with limits
`max_depth, max_depth + 1, ...`; `fuel` bounds the number of limits tried. -/
def DFS_go (innerFuel : Nat) (start_node : BoardNode) : Nat → Nat → PyRet
  | 0, _ => .timeout
  | fuel + 1, max_depth =>
    match limited_DFS innerFuel start_node max_depth with
    | .timeout => .timeout
    | .bareNone => DFS_go innerFuel start_node fuel (max_depth + 1)
    | r => r

/-- `DFS(start_node)`: iterative deepening starting at limit 1. -/
def DFS (fuel innerFuel : Nat) (start_node : BoardNode) : PyRet :=
  DFS_go innerFuel start_node fuel 1

/-- The push loop `for child in current_node.nodes` shared verbatim by
`UCS`, `Greedy` and `Hill_Climbing`: push children whose state is not in
`explored`, with no explored-set update and no statistics. -/
def ucsPush (explored : List State) :
    List BoardNode → List BoardNode → List BoardNode
  | [], frontier => frontier
  | c :: cs, frontier =>
    if c.state ∈ explored then ucsPush explored cs frontier
    else ucsPush explored cs (heappush nodeLt dnode frontier c)

/-- The `while frontier` loop of `UCS`. -/
def UCS_loop : Nat → List BoardNode → List State → PyRet
  | 0, _, _ => .timeout
  | fuel + 1, frontier, explored =>
    match heappop nodeLt dnode frontier with
    | none => .triple none 0 0
    | some (current_node, frontier2) =>
      let explored := setAdd explored current_node.state
      if current_node.is_goal then
        .triple (some current_node) explored.length current_node.depth
      else
        UCS_loop fuel (ucsPush explored current_node.expandChildren frontier2) explored

/-- `UCS(start_node)`. -/
def UCS (fuel : Nat) (start_node : BoardNode) : PyRet :=
  UCS_loop fuel (heappush nodeLt dnode [] start_node) []

/-- One step of Python's stable `list.sort`: insert `x` after every element
it is not strictly below. -/
def sortIns (lt : α → α → Bool) : List α → α → List α
  | [], x => [x]
  | y :: ys, x => if lt x y then x :: y :: ys else y :: sortIns lt ys x

/-- Python's `list.sort` with comparison `lt`: stable ascending insertion
sort (extensionally equal to Timsort, which is also stable ascending). -/
def pySort (lt : α → α → Bool) (l : List α) : List α := l.foldl (sortIns lt) []

/-- The sort key of `Greedy`: the Manhattan distance of the *blank* tile's
cell to the goal blank cell (`x.state.index(0)` vs `x.goal.index(0)`). -/
def greedyKey (x : BoardNode) : Nat :=
  let curr := Board.translate_to_2D ((listIndex 0 x.state).getD 0)
  let goal := Board.translate_to_2D (goalIndex 0)
  Board.manhattan_distance curr.1 curr.2 goal.1 goal.2

/-- The `while frontier` loop of `Greedy`: identical to `UCS` except the
children are sorted by `greedyKey` before the push loop. -/
def Greedy_loop : Nat → List BoardNode → List State → PyRet
  | 0, _, _ => .timeout
  | fuel + 1, frontier, explored =>
    match heappop nodeLt dnode frontier with
    | none => .triple none 0 0
    | some (current_node, frontier2) =>
      let explored := setAdd explored current_node.state
      if current_node.is_goal then
        .triple (some current_node) explored.length current_node.depth
      else
        Greedy_loop fuel
          (ucsPush explored
            (pySort (fun a b => greedyKey a < greedyKey b) current_node.expandChildren)
            frontier2)
          explored

/-- `Greedy(node)`. -/
def Greedy (fuel : Nat) (node : BoardNode) : PyRet :=
  Greedy_loop fuel (heappush nodeLt dnode [] node) []

/-- Python `<` on the `(cost, node)` tuples `BEAM_SEARCH` stores in its
frontier: lexicographic, with `BoardNode.__eq__`/`__lt__` (both by cost)
deciding the second component. -/
def pairLt (p q : Nat × BoardNode) : Bool :=
  p.1 < q.1 || (p.1 == q.1 && nodeLt p.2 q.2)

/-- Unreachable default pair for heap reads in `BEAM_SEARCH`. -/
def dpair : Nat × BoardNode := (0, dnode)

/-- The retained-successor loop of `BEAM_SEARCH`:
`for i in range(min(beam_width, len(successors)))`. -/
def beamAdmit : List BoardNode → List (Nat × BoardNode) → List State → Nat →
    (List (Nat × BoardNode) × List State × Nat)
  | [], frontier, explored, maxdepth => (frontier, explored, maxdepth)
  | c :: cs, frontier, explored, maxdepth =>
    beamAdmit cs (heappush pairLt dpair frontier (c.cost, c)) (setAdd explored c.state)
      (if c.depth > maxdepth then c.depth else maxdepth)

/-- The unexplored-successor filter of `BEAM_SEARCH`. -/
def beamSuccessors (explored : List State) : List BoardNode → List BoardNode
  | [] => []
  | c :: cs =>
    if c.state ∈ explored then beamSuccessors explored cs
    else c :: beamSuccessors explored cs

/-- The `while frontier` loop of `BEAM_SEARCH` (`beam_width = 3`). -/
def BEAM_loop : Nat → List (Nat × BoardNode) → List State → Nat → Nat → PyRet
  | 0, _, _, _, _ => .timeout
  | fuel + 1, frontier, explored_nodes, nodes_expanded, max_search_depth =>
    match heappop pairLt dpair frontier with
    | none => .bareNone
    | some (pair, frontier2) =>
      let node := pair.2
      let explored_nodes := setAdd explored_nodes node.state
      if node.is_goal then .triple (some node) nodes_expanded max_search_depth
      else
        let successors := pySort nodeLt (beamSuccessors explored_nodes node.expandChildren)
        match beamAdmit (successors.take 3) frontier2 explored_nodes max_search_depth with
        | (frontier3, explored3, maxdepth3) =>
          BEAM_loop fuel frontier3 explored3 (nodes_expanded + 1) maxdepth3

/-- `BEAM_SEARCH(start_node)` with the default `beam_width = 3`. -/
def BEAM_SEARCH (fuel : Nat) (start_node : BoardNode) : PyRet :=
  BEAM_loop fuel (heappush pairLt dpair [] (start_node.cost, start_node)) [] 0 0

/-- The `while frontier` loop of `Hill_Climbing` (the source text is the
`UCS` body verbatim). -/
def Hill_Climbing_loop : Nat → List BoardNode → List State → PyRet
  | 0, _, _ => .timeout
  | fuel + 1, frontier, explored =>
    match heappop nodeLt dnode frontier with
    | none => .triple none 0 0
    | some (current_node, frontier2) =>
      let explored := setAdd explored current_node.state
      if current_node.is_goal then
        .triple (some current_node) explored.length current_node.depth
      else
        Hill_Climbing_loop fuel (ucsPush explored current_node.expandChildren frontier2)
          explored

/-- `Hill_Climbing(start_node)`. -/
def Hill_Climbing (fuel : Nat) (start_node : BoardNode) : PyRet :=
  Hill_Climbing_loop fuel (heappush nodeLt dnode [] start_node) []

/-! ### The orchestrator -/

/-- The Python exception a `Board.solve` run can die with. -/
inductive PyErr : Type where
  | typeError        -- unpacking a bare `None` into three variables
  | attributeError   -- `None.actions()`
  | fuel             -- embedding artifact: the strategy ran out of fuel
deriving DecidableEq, Repr

/-- `Board.solve(state, func)` minus the wall-clock timing: build the root
node, run the strategy, then call `.actions()` on the returned node.
`final_node.actions()` on a `None` node raises `AttributeError`; unpacking
a bare `None` into `final_node, nodes_expanded, max_search_depth` raises
`TypeError`. -/
def Board.solve (state : State) (func : BoardNode → PyRet) :
    Except PyErr (List (Option Move) × Nat × Nat) :=
  match func (BoardNode.root state) with
  | .timeout => .error .fuel
  | .bareNone => .error .typeError
  | .triple none _ _ => .error .attributeError
  | .triple (some final_node) nodes_expanded max_search_depth =>
    .ok (final_node.actions, nodes_expanded, max_search_depth)

/-! ### Helper lemmas for the move model -/

/-- What `listIndex x l = some b` guarantees: `b` is in range, holds `x`,
and no earlier cell holds `x`. -/
theorem listIndex_bound :
    ∀ {l : List Nat} {x b : Nat}, listIndex x l = some b →
      b < l.length ∧ l.getD b 0 = x ∧ ∀ k, k < b → l.getD k 0 ≠ x := by
  intro l
  induction l with
  | nil => intro x b h; simp [listIndex] at h
  | cons y ys ih =>
    intro x b h
    by_cases hy : y = x
    · simp [listIndex, hy] at h
      subst h
      exact ⟨by simp, by simpa using hy, by omega⟩
    · simp [listIndex, hy] at h
      obtain ⟨b2, hb2, rfl⟩ := h
      obtain ⟨h1, h2, h3⟩ := ih hb2
      refine ⟨by simpa using h1, by simpa using h2, ?_⟩
      intro k hk
      cases k with
      | zero => simpa using hy
      | succ k2 => simpa using h3 k2 (by omega)

/-- The converse: an in-range first occurrence determines `listIndex`. -/
theorem listIndex_intro :
    ∀ (l : List Nat) (x j : Nat), j < l.length → l.getD j 0 = x →
      (∀ k, k < j → l.getD k 0 ≠ x) → listIndex x l = some j := by
  intro l
  induction l with
  | nil => intro x j h; simp at h
  | cons y ys ih =>
    intro x j hj hx hk
    cases j with
    | zero =>
      have hy : y = x := by simpa using hx
      simp [listIndex, hy]
    | succ j2 =>
      have hy : ¬ y = x := by simpa using hk 0 (by omega)
      have := ih x j2 (by simpa using hj) (by simpa using hx)
        (fun k hk2 => by simpa using hk (k + 1) (by omega))
      simp [listIndex, hy, this]

/-- Membership yields a `listIndex` hit. -/
theorem exists_listIndex_of_mem :
    ∀ {l : List Nat} {x : Nat}, x ∈ l → ∃ b, listIndex x l = some b := by
  intro l
  induction l with
  | nil => intro x h; simp at h
  | cons y ys ih =>
    intro x h
    by_cases hy : y = x
    · exact ⟨0, by simp [listIndex, hy]⟩
    · obtain ⟨b, hb⟩ := ih (by
        rcases List.mem_cons.1 h with h2 | h2
        · exact absurd h2.symm hy
        · exact h2)
      exact ⟨b + 1, by simp [listIndex, hy, hb]⟩

/-- On a duplicate-free list the blank cell is unique. -/
theorem nodup_zero_unique (s : List Nat) (hn : s.Nodup) {b : Nat}
    (hb : b < s.length) (h0 : s.getD b 0 = 0) :
    ∀ k, k < s.length → k ≠ b → s.getD k 0 ≠ 0 := by
  intro k hk hkb hc
  rw [List.getD_eq_getElem s 0 hk] at hc
  rw [List.getD_eq_getElem s 0 hb] at h0
  exact hkb ((List.Nodup.getElem_inj_iff hn).1 (hc.trans h0.symm))

/-- `getD` after `set` at the written cell. -/
theorem getD_set_eq :
    ∀ (l : List Nat) (i v : Nat), i < l.length → (l.set i v).getD i 0 = v := by
  intro l
  induction l with
  | nil => intro i v h; simp at h
  | cons y ys ih =>
    intro i v h
    cases i with
    | zero => rfl
    | succ i2 => simpa using ih i2 v (by simpa using h)

/-- `getD` after `set` at a different cell. -/
theorem getD_set_ne :
    ∀ (l : List Nat) (i k v : Nat), i ≠ k → (l.set i v).getD k 0 = l.getD k 0 := by
  intro l
  induction l with
  | nil => intro i k v h; simp
  | cons y ys ih =>
    intro i k v h
    cases i with
    | zero =>
      cases k with
      | zero => exact absurd rfl h
      | succ k2 => rfl
    | succ i2 =>
      cases k with
      | zero => rfl
      | succ k2 => simpa using ih i2 k2 v (by omega)

/-- Writing back the value already present is a no-op. -/
theorem set_getD_self :
    ∀ (l : List Nat) (i : Nat), i < l.length → l.set i (l.getD i 0) = l := by
  intro l
  induction l with
  | nil => intro i h; simp at h
  | cons y ys ih =>
    intro i h
    cases i with
    | zero => rfl
    | succ i2 => simpa using ih i2 (by simpa using h)

/-- `pyIndex` on an in-range non-negative index. -/
theorem pyIndex_in_range (n : Nat) (i : Int) (j : Nat)
    (h0 : 0 ≤ i) (h1 : i < (n : Int)) (h2 : i.toNat = j) :
    pyIndex n i = some j := by
  unfold pyIndex
  rw [if_pos ⟨h0, h1⟩, h2]

/-- The blank swap of `Board.transform` on a duplicate-free 9-cell state:
swapping the blank at `b` with cell `j` moves the blank to `j`, and the
reverse swap restores the state. -/
theorem swap_blank (s : List Nat) (hn : s.Nodup) (hlen : s.length = 9)
    {b j : Nat} (hb : listIndex 0 s = some b) (hj : j < 9) (hjb : j ≠ b)
    {t : List Nat} (ht : t = (s.set b (s.getD j 0)).set j (s.getD b 0)) :
    listIndex 0 t = some j ∧ (t.set j (t.getD b 0)).set b (t.getD j 0) = s := by
  obtain ⟨hblt, hb0, -⟩ := listIndex_bound hb
  have hb9 : b < 9 := hlen ▸ hblt
  have hLs : (s.set b (s.getD j 0)).length = 9 := by simp [hlen]
  have hLt : t.length = 9 := by simp [ht, hlen]
  have huniq := nodup_zero_unique s hn hblt hb0
  have htj : t.getD j 0 = 0 := by
    rw [ht, getD_set_eq _ j _ (by omega), hb0]
  have htb : t.getD b 0 = s.getD j 0 := by
    rw [ht, getD_set_ne _ j b _ hjb, getD_set_eq _ b _ (by omega)]
  have htk : ∀ k, k ≠ j → k ≠ b → t.getD k 0 = s.getD k 0 := by
    intro k hk1 hk2
    rw [ht, getD_set_ne _ j k _ (fun h => hk1 h.symm),
      getD_set_ne _ b k _ (fun h => hk2 h.symm)]
  constructor
  · apply listIndex_intro t 0 j (by omega) htj
    intro k hk
    have hk9 : k < 9 := by omega
    by_cases hkb : k = b
    · subst hkb
      rw [htb]
      exact huniq j (by omega) hjb
    · rw [htk k (by omega) hkb]
      exact huniq k (by omega) hkb
  · rw [htb, htj, ht, List.set_set,
      List.set_comm (s.getD j 0) 0 (s.set b (s.getD j 0)) hjb, List.set_set]
    have h1 : s.set b 0 = s := by
      rw [← hb0]
      exact set_getD_self s b (by omega)
    rw [h1]
    exact set_getD_self s j (by omega)

/-- `Board.transform` is the `pySwap` of the blank with the move's target
cell. -/
theorem transform_eq_pySwap {s : State} {b : Nat}
    (hb : listIndex 0 s = some b) (m : Move) :
    Board.transform s m = pySwap s b (moveTarget m b) := by
  cases m <;> simp only [Board.transform, hb, moveTarget]

/-- Round trip through `Board.transform`: a move whose target resolves to
an in-range cell `j ≠ b`, followed by a move whose target resolves back to
`b`, restores the state. -/
theorem transform_roundtrip (s : State) (hnodup : s.Nodup) (hlen : s.length = 9)
    {b j : Nat} (hb : listIndex 0 s = some b) (hj9 : j < 9) (hjb : j ≠ b)
    (m : Move) (hpy1 : pyIndex 9 (moveTarget m b) = some j)
    (hpy2 : pyIndex 9 (moveTarget (opposite m) j) = some b) :
    (Board.transform s m).bind (fun t => Board.transform t (opposite m)) = some s := by
  obtain ⟨hblank2, hrev⟩ := swap_blank s hnodup hlen hb hj9 hjb rfl
  have hLt : ((s.set b (s.getD j 0)).set j (s.getD b 0)).length = 9 := by
    simp [hlen]
  have h1 : pySwap s b (moveTarget m b) =
      some ((s.set b (s.getD j 0)).set j (s.getD b 0)) := by
    simp only [pySwap, hlen, hpy1]
  have h2 : pySwap ((s.set b (s.getD j 0)).set j (s.getD b 0)) j
      (moveTarget (opposite m) j) = some s := by
    simp only [pySwap, hLt, hpy2]
    rw [hrev]
  rw [transform_eq_pySwap hb m, h1]
  exact (transform_eq_pySwap hblank2 (opposite m)).trans h2

/-! ### Claims -/

/-- Claim C1. The claim states that when the selected strategy finds no
terminal node, `Board.solve` does not raise and returns a well-formed
empty-path result. The code contradicts this: on a strategy returning the
3-tuple `(None, n, d)` the call `final_node.actions()` raises
`AttributeError`, and on a strategy returning a bare `None` the unpacking
raises `TypeError`; `solve` never produces an empty-path result. -/
theorem solve_absent_node_raises :
    ∀ (s : State) (n d2 : Nat),
      Board.solve s (fun _ => .triple none n d2) = Except.error PyErr.attributeError ∧
      Board.solve s (fun _ => .bareNone) = Except.error PyErr.typeError := by
  intro s n d2
  exact ⟨rfl, rfl⟩

/-- Claim C2. The claim states that every strategy returns the uniform
3-tuple shape on an emptied frontier. The code contradicts this: the
exhausted-frontier exits of `A_STAR`, `BFS`, `BEAM_SEARCH` and
`limited_DFS` are a bare `None`, while `UCS`, `Greedy` and `Hill_Climbing`
return the tuple `(None, 0, 0)` — two different shapes. -/
theorem strategy_failure_shapes :
    ∀ (fuel n m : Nat) (explored : List State),
      A_STAR_loop (fuel + 1) [] explored n m = PyRet.bareNone ∧
      BFS_loop (fuel + 1) [] explored n m = PyRet.bareNone ∧
      BEAM_loop (fuel + 1) [] (explored) n m = PyRet.bareNone ∧
      limited_DFS_loop m (fuel + 1) [] explored n = PyRet.bareNone ∧
      UCS_loop (fuel + 1) [] explored = PyRet.triple none 0 0 ∧
      Greedy_loop (fuel + 1) [] explored = PyRet.triple none 0 0 ∧
      Hill_Climbing_loop (fuel + 1) [] explored = PyRet.triple none 0 0 := by
  intro fuel n m explored
  exact ⟨rfl, rfl, rfl, rfl, rfl, rfl, rfl⟩

/-- Claim C3, counterexample. The `UCS` frontier is a `heapq` heap ordered
by `BoardNode.__lt__`, which compares `cost() = heuristic_sum + depth`,
not depth: pushing a depth-0 node of cost 2 and then a depth-1 node of
cost 1, the depth-1 node is popped first, refuting "lower depth first". -/
theorem UCS_frontier_not_depth_ordered :
    (BoardNode.root [1,0,2,3,4,5,6,7,8]).depth <
      (BoardNode.mk goalState none none 1).depth ∧
    (heappop nodeLt dnode (heappush nodeLt dnode
        (heappush nodeLt dnode [] (BoardNode.root [1,0,2,3,4,5,6,7,8]))
        (BoardNode.mk goalState none none 1))).map (fun p => p.1) =
      some (BoardNode.mk goalState none none 1) := by
  constructor
  · decide
  · rfl

/-- Claim C3, amended: the `UCS` frontier is a min-priority queue keyed by
`BoardNode.cost` (the whole-board Manhattan sum plus depth, via
`BoardNode.__lt__`), not by depth: of two nodes pushed into an empty
frontier, the one with strictly smaller cost is popped first (the
first-pushed on a tie). -/
theorem UCS_frontier_pops_min_cost :
    ∀ a b : BoardNode,
      (heappop nodeLt dnode (heappush nodeLt dnode (heappush nodeLt dnode [] a) b)).map
        (fun p => p.1) = some (if b.cost < a.cost then b else a) := by
  intro a b
  by_cases h : b.cost < a.cost <;>
    simp [heappush, heappop, siftdown, siftdownGo, siftup, siftupGo, nodeLt, h]

/-- Claim C4, counterexample. The `Greedy` frontier is ordered by
`BoardNode.__lt__`, i.e. by `cost() = heuristic_sum + depth`, not by the
heuristic alone: a node with whole-board heuristic 0 (but depth 5) is
popped after a node with heuristic 2 (and depth 0), refuting "smaller
aggregate Manhattan distance popped first". -/
theorem Greedy_frontier_not_heuristic_ordered :
    heuristicSum (BoardNode.mk goalState none none 5).state <
      heuristicSum (BoardNode.root [1,0,2,3,4,5,6,7,8]).state ∧
    (heappop nodeLt dnode (heappush nodeLt dnode
        (heappush nodeLt dnode [] (BoardNode.mk goalState none none 5))
        (BoardNode.root [1,0,2,3,4,5,6,7,8]))).map (fun p => p.1) =
      some (BoardNode.root [1,0,2,3,4,5,6,7,8]) := by
  constructor
  · decide
  · rfl

/-- Claim C4, amended: the `Greedy` frontier ranks nodes by the f-cost
`heuristicSum + depth` (the blank-tile sort in the source only reorders a
node's children before they are pushed); of two nodes pushed into an empty
frontier, the one with strictly smaller `heuristicSum + depth` is popped
first (the first-pushed on a tie). -/
theorem Greedy_frontier_pops_min_fcost :
    ∀ a b : BoardNode,
      (heappop nodeLt dnode (heappush nodeLt dnode (heappush nodeLt dnode [] a) b)).map
        (fun p => p.1) =
      some (if heuristicSum b.state + b.depth < heuristicSum a.state + a.depth
            then b else a) := by
  intro a b
  by_cases h : heuristicSum b.state + b.depth < heuristicSum a.state + a.depth <;>
    simp [heappush, heappop, siftdown, siftdownGo, siftup, siftupGo, nodeLt,
      BoardNode.cost, h]

/-- Claim C5. The claim states that an illegal move makes `applyMove` fail
with an `InvalidMoveError`. The code contradicts it: `Board.transform`
performs no legality check, and no `InvalidMoveError` exists anywhere in
the source. On the goal state the illegal move `U` silently returns the
wrapped-swap state `(6,1,2,3,4,5,0,7,8)` (Python's negative indexing), and
on a blank in the bottom-right cell the illegal move `D` raises a bare
`IndexError` (`none`), not an `InvalidMoveError`. -/
theorem transform_illegal_no_error :
    Move.U ∉ Board.valid_actions goalState ∧
    Board.transform goalState Move.U = some [6,1,2,3,4,5,0,7,8] ∧
    Move.D ∉ Board.valid_actions [1,2,3,4,5,6,7,8,0] ∧
    Board.transform [1,2,3,4,5,6,7,8,0] Move.D = none := by
  refine ⟨by decide, rfl, by decide, rfl⟩

/-- Claim C6, counterexample. On the already-goal input, `UCS` returns
`nodes_expanded = len(explored) = 1`, not the claimed 0. -/
theorem UCS_goal_nodes_expanded_one :
    UCS 1 (BoardNode.root goalState) =
      PyRet.triple (some (BoardNode.root goalState)) 1 0 ∧ (1 : Nat) ≠ 0 := by
  exact ⟨rfl, by decide⟩

/-- Claim C6, amended: on the already-goal input every strategy returns its
root node immediately with an empty move path; `A_STAR`, `BFS`, `DFS` and
`BEAM_SEARCH` report `nodesExpanded = 0`, but `UCS`, `Greedy` and
`Hill_Climbing` report `len(explored) = 1` in the `nodesExpanded` slot. -/
theorem goal_state_all_strategies :
    A_STAR 1 (BoardNode.root goalState) = .triple (some (BoardNode.root goalState)) 0 0 ∧
    BFS 1 (BoardNode.root goalState) = .triple (some (BoardNode.root goalState)) 0 0 ∧
    DFS 1 1 (BoardNode.root goalState) = .triple (some (BoardNode.root goalState)) 0 0 ∧
    BEAM_SEARCH 1 (BoardNode.root goalState) =
      .triple (some (BoardNode.root goalState)) 0 0 ∧
    UCS 1 (BoardNode.root goalState) = .triple (some (BoardNode.root goalState)) 1 0 ∧
    Greedy 1 (BoardNode.root goalState) = .triple (some (BoardNode.root goalState)) 1 0 ∧
    Hill_Climbing 1 (BoardNode.root goalState) =
      .triple (some (BoardNode.root goalState)) 1 0 ∧
    (BoardNode.root goalState).actions = [] := by
  exact ⟨rfl, rfl, rfl, rfl, rfl, rfl, rfl, rfl⟩

/-- Claim C8. The claim states that `DFS` terminates on every finite
reachable space, returning an absent node when the goal is unreachable.
The code contradicts it: `while True` retries `limited_DFS` with limits
1, 2, 3, ... forever, and on a start state of odd inversion parity (goal
unreachable) no limit ever succeeds, so `DFS` never returns — here the
unsolvable root `(0,2,1,3,4,5,6,7,8)` is still running after the limits
1, 2 and 3 have all been exhausted (= the fuel-out artifact `timeout`). -/
theorem DFS_unsolvable_no_return :
    Board.is_solvable [0,2,1,3,4,5,6,7,8] = false ∧
    DFS 3 1000 (BoardNode.root [0,2,1,3,4,5,6,7,8]) = PyRet.timeout := by
  exact ⟨by decide, rfl⟩

/-- Claim C9. `Hill_Climbing` is the `UCS` source text verbatim: the two
strategies are extensionally equal — for every fuel bound and root node
they return the same value (the loop bodies agree step by step, so they
also pop nodes in the same order). -/
theorem Hill_Climbing_eq_UCS :
    ∀ (fuel : Nat) (start_node : BoardNode),
      Hill_Climbing fuel start_node = UCS fuel start_node := by
  have h : ∀ (fuel : Nat) (frontier : List BoardNode) (explored : List State),
      Hill_Climbing_loop fuel frontier explored = UCS_loop fuel frontier explored := by
    intro fuel
    induction fuel with
    | zero => intro frontier explored; rfl
    | succ n ih =>
      intro frontier explored
      simp only [Hill_Climbing_loop, UCS_loop]
      cases heappop nodeLt dnode frontier with
      | none => rfl
      | some p =>
        by_cases hg : p.1.is_goal <;> simp [hg, ih]
  intro fuel start_node
  simpa [Hill_Climbing, UCS] using
    h fuel (heappush nodeLt dnode [] start_node) []

/-- Claim C10. `BoardNode.__eq__` and `BoardNode.__lt__` are decided by
`cost()` (whole-board Manhattan sum plus depth) alone: `a == b` iff their
costs are equal and `a < b` iff `a`'s cost is smaller; consequently two
nodes holding different states compare equal as soon as their f-costs
coincide. -/
theorem node_comparison_by_cost :
    (∀ a b : BoardNode,
      (nodeEq a b = true ↔ a.cost = b.cost) ∧
      (nodeLt a b = true ↔ a.cost < b.cost)) ∧
    ∃ a b : BoardNode, a.state ≠ b.state ∧ nodeEq a b = true := by
  constructor
  · intro a b
    constructor <;> simp [nodeEq, nodeLt]
  · exact ⟨BoardNode.root [1,0,2,3,4,5,6,7,8], BoardNode.mk goalState none none 2,
      by decide, by decide⟩

/-- Claim C7. Move reversibility: on any permutation state, a legal move
followed by its opposite restores the state. -/
theorem move_reversibility (s : State) (hperm : s.Perm (List.range 9))
    (m : Move) (hm : m ∈ Board.valid_actions s) :
    (Board.transform s m).bind (fun t => Board.transform t (opposite m)) = some s := by
  have hlen : s.length = 9 := by simpa using hperm.length_eq
  have hnodup : s.Nodup := hperm.nodup_iff.2 (List.nodup_range 9)
  obtain ⟨b, hb⟩ :=
    exists_listIndex_of_mem (hperm.mem_iff.2 (by simp : (0 : Nat) ∈ List.range 9))
  obtain ⟨hblt, hb0, -⟩ := listIndex_bound hb
  have hb9 : b < 9 := hlen ▸ hblt
  have hva : Board.valid_actions s =
      (if b > 2 then [Move.U] else []) ++ (if b < 6 then [Move.D] else []) ++
      (if b % 3 > 0 then [Move.L] else []) ++ (if b % 3 < 2 then [Move.R] else []) := by
    simp [Board.valid_actions, hb]
  rw [hva] at hm
  cases m with
  | U =>
    have hcond : b > 2 := by
      by_contra hc
      split_ifs at hm <;> simp_all
    exact transform_roundtrip s hnodup hlen hb (j := b - 3) (by omega) (by omega) Move.U
      (by simp only [moveTarget]
          exact pyIndex_in_range _ _ _ (by omega) (by omega) (by omega))
      (by simp only [opposite, moveTarget]
          exact pyIndex_in_range _ _ _ (by omega) (by omega) (by omega))
  | D =>
    have hcond : b < 6 := by
      by_contra hc
      split_ifs at hm <;> simp_all
    exact transform_roundtrip s hnodup hlen hb (j := b + 3) (by omega) (by omega) Move.D
      (by simp only [moveTarget]
          exact pyIndex_in_range _ _ _ (by omega) (by omega) (by omega))
      (by simp only [opposite, moveTarget]
          exact pyIndex_in_range _ _ _ (by omega) (by omega) (by omega))
  | L =>
    have hcond : b % 3 > 0 := by
      by_contra hc
      split_ifs at hm <;> simp_all
    exact transform_roundtrip s hnodup hlen hb (j := b - 1) (by omega) (by omega) Move.L
      (by simp only [moveTarget]
          exact pyIndex_in_range _ _ _ (by omega) (by omega) (by omega))
      (by simp only [opposite, moveTarget]
          exact pyIndex_in_range _ _ _ (by omega) (by omega) (by omega))
  | R =>
    have hcond : b % 3 < 2 := by
      by_contra hc
      split_ifs at hm <;> simp_all
    exact transform_roundtrip s hnodup hlen hb (j := b + 1) (by omega) (by omega) Move.R
      (by simp only [moveTarget]
          exact pyIndex_in_range _ _ _ (by omega) (by omega) (by omega))
      (by simp only [opposite, moveTarget]
          exact pyIndex_in_range _ _ _ (by omega) (by omega) (by omega))

/-- Witness for claim C7: the goal state is a permutation of `0..8`, `D`
is one of its legal moves, and applying `D` then `opposite D` restores it. -/
theorem move_reversibility_witness :
    goalState.Perm (List.range 9) ∧ Move.D ∈ Board.valid_actions goalState ∧
    (Board.transform goalState Move.D).bind
      (fun t => Board.transform t (opposite Move.D)) = some goalState :=
  ⟨by decide, by decide,
    move_reversibility goalState (by decide) Move.D (by decide)⟩
